import Mathlib

/-!
Verification of the `ReactComponentAnalyzer` core of the ReactBroX repository
(`src/media/main.js`, class `ReactComponentAnalyzer`): component-identity
resolution (`extractComponentName`), the structural extraction traversal
(`extractComponentDetails` with `extractHookInfo`, `extractStateFromUseState`,
`extractContextInfo`, `detectStoreUsage`, `addStoreInfo`), the usage counter
(`countVariableUsage`), and the props-bridge behaviour of `analyzeComponent`.

The Babel AST is embedded as the inductive `Node`, restricted to the node
shapes the analyzer inspects.  `@babel/traverse` is modelled by the documented
pre-order (depth-first, children in visitor-key order) traversal of a subtree;
`path.parent` is the immediate parent node and `path.scope.block` is the
nearest enclosing scope node (Program or a function; a BlockStatement that is
a function body is not its own scope in Babel, so function bodies are inlined
as statement lists here).
-/

namespace ReactBroX

/-- Source position, as in Babel `loc.start` (1-based line, 0-based column). -/
structure Loc where
  line : Nat
  column : Nat
deriving Repr, DecidableEq

/-- The fragment of the Babel AST inspected by `ReactComponentAnalyzer`.
Field order of each constructor follows Babel visitor-key order, so the
traversal below visits children in the same order as `@babel/traverse`.
`NumericLiteral` stores the textual rendering that `value.toString()`
produces for the literal's numeric value. -/
inductive Node where
  | Program (body : List Node)
  | FunctionDeclaration (id : Option Node) (params : List Node) (body : List Node)
  | FunctionExpression (id : Option Node) (params : List Node) (body : List Node)
  | ArrowFunctionExpression (params : List Node) (body : List Node)
  | VariableDeclaration (declarations : List Node)
  | VariableDeclarator (id : Node) (init : Option Node)
  | ExportDefaultDeclaration (declaration : Node)
  | CallExpression (callee : Node) (args : List Node) (loc : Option Loc)
  | Identifier (name : String)
  | MemberExpression (obj : Node) (property : Node)
  | ArrayPattern (elements : List (Option Node))
  | ObjectPattern (properties : List Node)
  | ObjectProperty (key : Option Node) (value : Node)
  | StringLiteral (value : String)
  | NumericLiteral (text : String)
  | BooleanLiteral (value : Bool)
  | NullLiteral
  | ArrayExpression (elements : List (Option Node))
  | ObjectExpression (properties : List Node)
  | ReturnStatement (argument : Option Node)
  | ExpressionStatement (expression : Node)
  | JSXElement (children : List Node)
  | JSXExpressionContainer (expression : Node)
deriving Repr

/-- One visited node of a traversal, together with the Babel `path.parent`
node and the `path.scope.block` node (nearest enclosing scope). -/
structure Visit where
  node : Node
  parent : Node
  scope : Node
deriving Repr

mutual

/-- Pre-order visits of the subtree rooted at `n` (including `n` itself),
where `p` is `n`'s parent and `s` the nearest scope node strictly above `n`.
Program and function nodes open a new scope for their children. -/
def visits : Node → Node → Node → List Visit
  | n@(.Program body), p, s => ⟨n, p, s⟩ :: visitsL body n n
  | n@(.FunctionDeclaration id params body), p, s =>
      ⟨n, p, s⟩ :: (visitsO id n n ++ visitsL params n n ++ visitsL body n n)
  | n@(.FunctionExpression id params body), p, s =>
      ⟨n, p, s⟩ :: (visitsO id n n ++ visitsL params n n ++ visitsL body n n)
  | n@(.ArrowFunctionExpression params body), p, s =>
      ⟨n, p, s⟩ :: (visitsL params n n ++ visitsL body n n)
  | n@(.VariableDeclaration declarations), p, s => ⟨n, p, s⟩ :: visitsL declarations n s
  | n@(.VariableDeclarator id init), p, s => ⟨n, p, s⟩ :: (visits id n s ++ visitsO init n s)
  | n@(.ExportDefaultDeclaration declaration), p, s => ⟨n, p, s⟩ :: visits declaration n s
  | n@(.CallExpression callee args _), p, s => ⟨n, p, s⟩ :: (visits callee n s ++ visitsL args n s)
  | n@(.Identifier _), p, s => [⟨n, p, s⟩]
  | n@(.MemberExpression obj property), p, s => ⟨n, p, s⟩ :: (visits obj n s ++ visits property n s)
  | n@(.ArrayPattern elements), p, s => ⟨n, p, s⟩ :: visitsOL elements n s
  | n@(.ObjectPattern properties), p, s => ⟨n, p, s⟩ :: visitsL properties n s
  | n@(.ObjectProperty key value), p, s => ⟨n, p, s⟩ :: (visitsO key n s ++ visits value n s)
  | n@(.StringLiteral _), p, s => [⟨n, p, s⟩]
  | n@(.NumericLiteral _), p, s => [⟨n, p, s⟩]
  | n@(.BooleanLiteral _), p, s => [⟨n, p, s⟩]
  | n@(.NullLiteral), p, s => [⟨n, p, s⟩]
  | n@(.ArrayExpression elements), p, s => ⟨n, p, s⟩ :: visitsOL elements n s
  | n@(.ObjectExpression properties), p, s => ⟨n, p, s⟩ :: visitsL properties n s
  | n@(.ReturnStatement argument), p, s => ⟨n, p, s⟩ :: visitsO argument n s
  | n@(.ExpressionStatement expression), p, s => ⟨n, p, s⟩ :: visits expression n s
  | n@(.JSXElement children), p, s => ⟨n, p, s⟩ :: visitsL children n s
  | n@(.JSXExpressionContainer expression), p, s => ⟨n, p, s⟩ :: visits expression n s
  termination_by structural n _ _ => n

/-- Visits of a list of sibling subtrees. -/
def visitsL : List Node → Node → Node → List Visit
  | [], _, _ => []
  | c :: t, p, s => visits c p s ++ visitsL t p s
  termination_by structural l _ _ => l

/-- Visits of an optional child subtree. -/
def visitsO : Option Node → Node → Node → List Visit
  | none, _, _ => []
  | some c, p, s => visits c p s
  termination_by structural o _ _ => o

/-- Visits of a list of optional children (array holes are skipped). -/
def visitsOL : List (Option Node) → Node → Node → List Visit
  | [], _, _ => []
  | c :: t, p, s => visitsO c p s ++ visitsOL t p s
  termination_by structural l _ _ => l

end

/-- All strict descendants of `root` in pre-order, as `traverse(root, ...)`
visits them: `root` itself is not visited, its children carry `root` as
parent, and `root` is the ambient scope block. -/
def subVisits (root : Node) : List Visit :=
  (visits root root root).drop 1

/-! ### Data model (`ComponentInfo` and friends, `main.js` lines 1950-2002)

Fields the extraction never writes (`HookInfo.description`, `ContextInfo.type`,
`PropInfo.usageCount`) are omitted.  `StateInfo.usageCount` and
`ComponentInfo.storeUsage` are optional in the TypeScript interfaces but are
always set by the extraction, so they are plain fields here. -/

/-- `HookInfo` (name, optional dependency list, call location, optional
textual rendering of the binding pattern). -/
structure HookInfo where
  name : String
  dependencies : Option (List String)
  callLocation : Loc
  value : Option String
deriving Repr, DecidableEq

/-- `StateInfo` for one recognized `useState` declaration. -/
structure StateInfo where
  name : String
  initialValue : Option String
  setter : String
  usageCount : Nat
deriving Repr, DecidableEq

/-- `ContextInfo` for one recognized `useContext` call. -/
structure ContextInfo where
  name : String
  usageLocations : List Loc
  value : Option String
deriving Repr, DecidableEq

/-- The store-library tag of a `StoreInfo` entry. -/
inductive StoreType where
  | redux | mobx | recoil | zustand | jotai | other
deriving Repr, DecidableEq

/-- `StoreInfo`: one bucket per store library. -/
structure StoreInfo where
  type : StoreType
  actions : List String
  selectors : List String
deriving Repr, DecidableEq

/-- The `category` argument of `addStoreInfo`. -/
inductive StoreCategory where
  | actions | selectors
deriving Repr, DecidableEq

/-- `PropInfo` as filled in from the react-docgen-typescript result. -/
structure PropInfo where
  name : String
  type : String
  required : Bool
  defaultValue : Option String
  description : Option String
deriving Repr, DecidableEq

/-- `ComponentInfo`, the per-file analysis result. -/
structure ComponentInfo where
  name : String
  filePath : String
  hooks : List HookInfo
  states : List StateInfo
  contexts : List ContextInfo
  props : List PropInfo
  description : Option String
  storeUsage : List StoreInfo
deriving Repr, DecidableEq

/-! ### Identity Resolver (`extractComponentName`, lines 2137-2198) -/

/-- `s.startsWith p`, computed on the underlying character lists (extensionally
`String.startsWith`, but reducible by the kernel). -/
def strStartsWith (s p : String) : Bool :=
  p.data.isPrefixOf s.data

/-- Split a character list at every separator character, like
`String.split` / JavaScript `String.prototype.split`: `n` separators
produce `n+1` (possibly empty) fields. -/
def splitOnChar (p : Char → Bool) : List Char → List (List Char)
  | [] => [[]]
  | c :: t =>
      if p c then [] :: splitOnChar p t
      else
        match splitOnChar p t with
        | h :: r => (c :: h) :: r
        | [] => [[c]]

/-- `isPascalCase`: the regex test `^[A-Z][A-Za-z0-9]*$`. -/
def isPascalCase (s : String) : Bool :=
  match s.toList with
  | [] => false
  | c :: rest =>
      (('A' ≤ c && c ≤ 'Z') &&
        rest.all fun d =>
          ('A' ≤ d && d ≤ 'Z') || ('a' ≤ d && d ≤ 'z') || ('0' ≤ d && d ≤ '9'))

/-- The file name without extension: last path segment of
`filePath.split(/[\/\\]/)`, then the part before the first `.`. -/
def fileNameWithoutExt (filePath : String) : String :=
  let pathParts := splitOnChar (fun c => c == '/' || c == '\\') filePath.data
  let fileName := pathParts.getLastD []
  String.mk ((splitOnChar (fun c => c == '.') fileName).headD [])

/-- Is the `VariableDeclarator` initializer an arrow function or function
expression (rule (2) of the resolver)? -/
def isCandidateInit : Option Node → Bool
  | some (.ArrowFunctionExpression _ _) => true
  | some (.FunctionExpression _ _ _) => true
  | _ => false

/-- Is the default-export declaration an anonymous arrow/function expression
or a function declaration without a name (the `ExportDefaultDeclaration`
visitor's shape test)? -/
def isAnonymousDefault : Node → Bool
  | .ArrowFunctionExpression _ _ => true
  | .FunctionExpression _ _ _ => true
  | .FunctionDeclaration none _ _ => true
  | _ => false

/-- The mutable state of `extractComponentName`'s traversal:
`componentName` and `foundInAST`. -/
structure NameState where
  componentName : Option String
  foundInAST : Bool
deriving Repr, DecidableEq

/-- The condition of the `FunctionDeclaration` visitor (rule (1): a
PascalCase function-declaration identifier) and of the
`VariableDeclarator` visitor (rule (2): a PascalCase variable bound to an
arrow/function expression), returning the candidate name when it fires. -/
def candidateName : Node → Option String
  | .FunctionDeclaration (some (.Identifier nm)) _ _ =>
      if isPascalCase nm then some nm else none
  | .VariableDeclarator (.Identifier nm) init =>
      if isPascalCase nm && isCandidateInit init then some nm else none
  | _ => none

/-- One step of `extractComponentName`'s traversal: the
`FunctionDeclaration`/`VariableDeclarator` visitors overwrite
`componentName` whenever their condition (`candidateName`) fires; the
`ExportDefaultDeclaration` visitor sets the filename only while
`foundInAST` is still false. -/
def nameStep (fnwe : String) (st : NameState) (n : Node) : NameState :=
  match candidateName n with
  | some nm => ⟨some nm, true⟩
  | none =>
      match n with
      | .ExportDefaultDeclaration decl =>
          if !st.foundInAST && isAnonymousDefault decl && isPascalCase fnwe then
            ⟨some fnwe, true⟩
          else st
      | _ => st

/-- The post-traversal filename logic of `extractComponentName`
(lines 2179-2190): fall back to a PascalCase filename, or attach the
filename to a found name that differs from it. -/
def finishName (fnwe : String) : Option String → Option String
  | none => if isPascalCase fnwe then some fnwe else none
  | some nm =>
      if nm != fnwe && isPascalCase fnwe then some (nm ++ " (" ++ fnwe ++ ")")
      else some nm

/-- `extractComponentName(filePath, ast)`: traverse, then apply the
filename fallback/disambiguation. -/
def extractComponentName (filePath : String) (ast : Node) : Option String :=
  finishName (fileNameWithoutExt filePath)
    (((subVisits ast).map Visit.node).foldl
      (nameStep (fileNameWithoutExt filePath)) ⟨none, false⟩).componentName

/-- All rule (1)/(2) candidates of a file in document (traversal) order. -/
def componentCandidates (ast : Node) : List String :=
  ((subVisits ast).map Visit.node).filterMap candidateName

/-- Does the file contain a default export whose declaration is an anonymous
arrow/function expression or an unnamed function declaration?  (Stated from
the spec's rule (3) wording, to express claims about the fallback.) -/
def hasAnonymousDefaultExport (ast : Node) : Bool :=
  (subVisits ast).any fun v =>
    match v.node with
    | .ExportDefaultDeclaration d => isAnonymousDefault d
    | _ => false

/-! ### Usage Counter (`countVariableUsage`, lines 2312-2326) -/

/-- Is the node a `VariableDeclarator`? (`innerPath.parent.type !==
'VariableDeclarator'` test of `countVariableUsage`.) -/
def isVariableDeclaratorNode : Node → Bool
  | .VariableDeclarator _ _ => true
  | _ => false

/-- `countVariableUsage`: traverse `path.scope.block`, counting every
`Identifier` named `variableName` whose immediate parent is not a
`VariableDeclarator`. -/
def countVariableUsage (scopeBlock : Node) (variableName : String) : Nat :=
  ((subVisits scopeBlock).filter fun v =>
    match v.node with
    | .Identifier nm => nm == variableName && !isVariableDeclaratorNode v.parent
    | _ => false).length

/-! ### Structural Extractor (lines 2203-2562) -/

/-- `loc.start` of a call, or `{0,0}` when the node carries no position. -/
def locOrZero : Option Loc → Loc
  | some l => l
  | none => ⟨0, 0⟩

/-- The identifier keys of an object pattern:
`properties.filter(p => p.key && p.key.type === 'Identifier').map(p => p.key.name)`. -/
def objectPatternKeys (properties : List Node) : List String :=
  properties.filterMap fun p =>
    match p with
    | .ObjectProperty (some (.Identifier nm)) _ => some nm
    | _ => none

/-- The identifier elements of an array pattern:
`elements.filter(el => el && el.type === 'Identifier').map(el => el.name)`. -/
def arrayPatternNames (elements : List (Option Node)) : List String :=
  elements.filterMap fun e =>
    match e with
    | some (.Identifier nm) => some nm
    | _ => none

/-- `extractHookValue`: textual rendering of the binding pattern the hook
call's result is assigned to (identifier, array pattern, or object
pattern; anything else yields nothing). -/
def extractHookValue (v : Visit) : Option String :=
  match v.parent with
  | .VariableDeclarator (.Identifier nm) _ => some nm
  | .VariableDeclarator (.ArrayPattern elements) _ =>
      if elements.length ≥ 1 then
        let els := arrayPatternNames elements
        if els.length > 0 then some ("[" ++ String.intercalate ", " els ++ "]")
        else none
      else none
  | .VariableDeclarator (.ObjectPattern properties) _ =>
      let keys := objectPatternKeys properties
      if keys.length > 0 then
        some ("\x7b " ++ String.intercalate ", " keys ++ " \x7d")
      else none
  | _ => none

/-- The text contributed by one dependency-array element:
an identifier's name; a call expression's callee name, with
`'Anonymous function call'` when the callee has no (truthy) name;
`'Unknown dependency'` otherwise. -/
def depText : Option Node → String
  | some (.Identifier nm) => nm
  | some (.CallExpression callee _ _) =>
      match callee with
      | .Identifier nm => if nm == "" then "Anonymous function call" else nm
      | _ => "Anonymous function call"
  | _ => "Unknown dependency"

/-- `extractHookInfo`: hook name, call location, the dependency array for
`useEffect`/`useMemo`/`useCallback` when the second argument is an array
literal (mapped through `depText`, then `filter(Boolean)`), and the
rendered binding value. -/
def extractHookInfo (v : Visit) : HookInfo :=
  match v.node with
  | .CallExpression callee args loc =>
      let nm := match callee with | .Identifier s => s | _ => ""
      let dependencies :=
        if nm == "useEffect" || nm == "useMemo" || nm == "useCallback" then
          match args with
          | _ :: .ArrayExpression deps :: _ =>
              some ((deps.map depText).filter fun s => s != "")
          | _ => none
        else none
      ⟨nm, dependencies, locOrZero loc, extractHookValue v⟩
  | _ => ⟨"", none, ⟨0, 0⟩, none⟩

/-- The literal rendering of the `useState` call's first argument
(lines 2280-2299): quoted string, numeric/boolean literal text, `null`,
`[]`, `\x7b\x7d`; anything else (or no argument) yields none. -/
def renderInitialValue : List Node → Option String
  | [] => none
  | arg :: _ =>
      match arg with
      | .StringLiteral v => some ("\"" ++ v ++ "\"")
      | .NumericLiteral t => some t
      | .BooleanLiteral b => some (if b then "true" else "false")
      | .NullLiteral => some "null"
      | .ArrayExpression _ => some "[]"
      | .ObjectExpression _ => some "\x7b\x7d"
      | _ => none

/-- `extractStateFromUseState`: requires the call's parent to be a
`VariableDeclarator` whose id is an array pattern with at least two
elements whose first two elements are identifiers; renders the initial
value and counts usages of the state name in the call's scope block. -/
def extractStateFromUseState (v : Visit) : Option StateInfo :=
  match v.node with
  | .CallExpression _ args _ =>
      match v.parent with
      | .VariableDeclarator
          (.ArrayPattern (some (.Identifier stateName) ::
                          some (.Identifier setterName) :: _)) _ =>
          some ⟨stateName, renderInitialValue args, setterName,
                countVariableUsage v.scope stateName⟩
      | _ => none
  | _ => none

/-- `extractContextValue`: rendering of the binding the `useContext` result
is assigned to, annotated with the context argument's name
(`'unknown'` when the first argument is not an identifier). -/
def extractContextValue (v : Visit) : Option String :=
  match v.node with
  | .CallExpression _ args _ =>
      let contextName :=
        match args with
        | .Identifier nm :: _ => nm
        | _ => "unknown"
      match v.parent with
      | .VariableDeclarator (.Identifier nm) _ =>
          some (nm ++ " (from " ++ contextName ++ ")")
      | .VariableDeclarator (.ObjectPattern properties) _ =>
          let keys := objectPatternKeys properties
          if keys.length > 0 then
            some ("\x7b " ++ String.intercalate ", " keys ++ " \x7d (from " ++
                  contextName ++ ")")
          else some ("from " ++ contextName)
      | _ => some ("from " ++ contextName)
  | _ => none

/-- `extractContextInfo`: requires a first argument that is a bare
identifier; records that identifier as the context name and the call
position as the single usage location. -/
def extractContextInfo (v : Visit) : Option ContextInfo :=
  match v.node with
  | .CallExpression _ args loc =>
      match args with
      | .Identifier nm :: _ =>
          some ⟨nm, [locOrZero loc], extractContextValue v⟩
      | _ => none
  | _ => none

/-- `getCalleeArgumentName`: the first argument's identifier name, or the
`'Anonymous argument'` placeholder. -/
def getCalleeArgumentName (args : List Node) : String :=
  match args with
  | .Identifier nm :: _ => nm
  | _ => "Anonymous argument"

/-- Insert `nm` into the `cat` list of `s` with set semantics. -/
def addToCategory (s : StoreInfo) (cat : StoreCategory) (nm : String) : StoreInfo :=
  match cat with
  | .actions =>
      if s.actions.contains nm then s else { s with actions := s.actions ++ [nm] }
  | .selectors =>
      if s.selectors.contains nm then s else { s with selectors := s.selectors ++ [nm] }

/-- `addStoreInfo`: find the bucket of type `t` (creating and appending it
when absent) and insert `nm` into its `cat` list without duplicates. -/
def addStoreInfo : List StoreInfo → StoreType → StoreCategory → String → List StoreInfo
  | [], t, cat, nm => [addToCategory ⟨t, [], []⟩ cat nm]
  | s :: rest, t, cat, nm =>
      if s.type = t then addToCategory s cat nm :: rest
      else s :: addStoreInfo rest t cat nm

/-- `detectStoreUsage`: the fixed store-binding name table
(`useSelector`/`useDispatch` for redux, `useRecoilState`/`useRecoilValue`
for recoil, `useStore` for zustand, `useAtom` for jotai). -/
def detectStoreUsage (v : Visit) (storeUsage : List StoreInfo) : List StoreInfo :=
  match v.node with
  | .CallExpression callee args _ =>
      match callee with
      | .Identifier nm =>
          if nm == "useSelector" then
            let selectorProps :=
              match v.parent with
              | .VariableDeclarator (.ObjectPattern properties) _ =>
                  objectPatternKeys properties
              | _ => []
            let selectorName := getCalleeArgumentName args
            let selectorInfo :=
              if selectorProps.length > 0 then
                selectorName ++ " -> \x7b " ++
                  String.intercalate ", " selectorProps ++ " \x7d"
              else selectorName
            addStoreInfo storeUsage .redux .selectors selectorInfo
          else if nm == "useDispatch" then
            addStoreInfo storeUsage .redux .actions "디스패치"
          else if nm == "useRecoilState" then
            addStoreInfo storeUsage .recoil .selectors (getCalleeArgumentName args)
          else if nm == "useRecoilValue" then
            addStoreInfo storeUsage .recoil .selectors (getCalleeArgumentName args)
          else if nm == "useStore" then
            let storeProps :=
              match v.parent with
              | .VariableDeclarator (.ObjectPattern properties) _ =>
                  objectPatternKeys properties
              | _ => []
            let storeName := getCalleeArgumentName args
            let storeInfo :=
              if storeProps.length > 0 then
                storeName ++ " -> \x7b " ++
                  String.intercalate ", " storeProps ++ " \x7d"
              else storeName
            addStoreInfo storeUsage .zustand .selectors storeInfo
          else if nm == "useAtom" then
            addStoreInfo storeUsage .jotai .selectors (getCalleeArgumentName args)
          else storeUsage
      | _ => storeUsage
  | _ => storeUsage

/-- The per-file accumulator of `extractComponentDetails`. -/
structure ExtractAcc where
  hooks : List HookInfo
  states : List StateInfo
  contexts : List ContextInfo
  storeUsage : List StoreInfo
deriving Repr, DecidableEq

/-- The body of `extractComponentDetails`'s `CallExpression` visitor:
hook registration with dedup-by-name, nested state and context extraction,
then store detection. -/
def processCall (acc : ExtractAcc) (v : Visit) : ExtractAcc :=
  let acc1 :=
    match v.node with
    | .CallExpression (.Identifier nm) _ _ =>
        if strStartsWith nm "use" then
          if acc.hooks.any (fun h => h.name == nm) then acc
          else
            let hookInfo := extractHookInfo v
            let acc' := { acc with hooks := acc.hooks ++ [hookInfo] }
            let acc'' :=
              if nm == "useState" then
                match extractStateFromUseState v with
                | some st => { acc' with states := acc'.states ++ [st] }
                | none => acc'
              else acc'
            if nm == "useContext" then
              match extractContextInfo v with
              | some ci =>
                  if acc''.contexts.any (fun c => c.name == ci.name) then acc''
                  else { acc'' with contexts := acc''.contexts ++ [ci] }
              | none => acc''
            else acc''
        else acc
    | _ => acc
  { acc1 with storeUsage := detectStoreUsage v acc1.storeUsage }

/-- Is the visited node a call expression? -/
def isCallExpressionNode : Node → Bool
  | .CallExpression _ _ _ => true
  | _ => false

/-- The call-expression visits of the file, in traversal order. -/
def callVisits (ast : Node) : List Visit :=
  (subVisits ast).filter fun v => isCallExpressionNode v.node

/-- `extractComponentDetails`: fold the `CallExpression` visitor over every
call expression of the file, starting from empty accumulators. -/
def extractComponentDetails (ast : Node) : ExtractAcc :=
  (callVisits ast).foldl processCall ⟨[], [], [], []⟩

/-! ### Props Bridge and `analyzeComponent` (lines 2074-2132)

The react-docgen-typescript collaborator is a black box; its outcome for the
analyzed file is passed in as a `DocgenResult`. -/

/-- One prop tuple of the docgen result. -/
structure DocgenProp where
  name : String
  typeName : Option String
  required : Bool
  defaultValue : Option String
  description : Option String
deriving Repr, DecidableEq

/-- One parsed document of the docgen result. -/
structure DocgenDoc where
  props : List DocgenProp
  description : String
deriving Repr, DecidableEq

/-- Outcome of `parser.parse(filePath)`: an exception, or a list of parsed
documents (possibly empty). -/
inductive DocgenResult where
  | failure
  | success (docs : List DocgenDoc)
deriving Repr, DecidableEq

/-- `prop.type?.name || 'unknown'` (JavaScript `||`: an absent or empty
name falls back to `'unknown'`). -/
def propTypeName : Option String → String
  | some nm => if nm == "" then "unknown" else nm
  | none => "unknown"

/-- `analyzeComponent`: resolve the component name (or return nothing),
extract hooks/states/contexts/storeUsage, then merge the docgen outcome;
a docgen failure or empty result leaves `props` empty and `description`
unset. -/
def analyzeComponent (filePath relativePath : String) (ast : Node)
    (docgen : DocgenResult) : Option ComponentInfo :=
  match extractComponentName filePath ast with
  | none => none
  | some componentName =>
      let d := extractComponentDetails ast
      let base : ComponentInfo :=
        ⟨componentName, relativePath, d.hooks, d.states, d.contexts, [], none,
         d.storeUsage⟩
      match docgen with
      | .failure => some base
      | .success [] => some base
      | .success (doc :: _) =>
          some { base with
                 props := doc.props.map fun p =>
                   ⟨p.name, propTypeName p.typeName, p.required, p.defaultValue,
                    p.description⟩,
                 description := some doc.description }

/-! ### Derived notions used by the verification -/

/-- The hook name recognized by the `CallExpression` visitor at a visit:
the callee's identifier name when it starts with `use`. -/
def hookNameOfVisit (v : Visit) : Option String :=
  match v.node with
  | .CallExpression (.Identifier nm) _ _ =>
      if strStartsWith nm "use" then some nm else none
  | _ => none

/-- All recognized hook-call names of a file in traversal order
(with repetitions). -/
def hookCallNames (ast : Node) : List String :=
  (callVisits ast).filterMap hookNameOfVisit

/-- Append a name unless it is already present (first-occurrence dedup step). -/
def dedupStep (acc : List String) (nm : String) : List String :=
  if acc.contains nm then acc else acc ++ [nm]

/-- First-occurrence deduplication of a list of names. -/
def dedupFirst (l : List String) : List String :=
  l.foldl dedupStep []

/-- Is the visit a call whose callee is the bare identifier `useState`? -/
def isUseStateCall (v : Visit) : Bool :=
  match v.node with
  | .CallExpression (.Identifier nm) _ _ => nm == "useState"
  | _ => false

/-- Is the visit a `useState` call whose enclosing binding is a
2+-element array-destructuring pattern (the state-declaration shape
described by the spec)? -/
def isDestructuredUseState (v : Visit) : Bool :=
  match v.node, v.parent with
  | .CallExpression (.Identifier nm) _ _, .VariableDeclarator (.ArrayPattern els) _ =>
      nm == "useState" && decide (2 ≤ els.length)
  | _, _ => false

/-- The store-type tags the detection table can actually produce. -/
def allowedStoreType : StoreType → Bool
  | .redux => true
  | .recoil => true
  | .zustand => true
  | .jotai => true
  | _ => false

/-- A detached `useState` call visit destructured into `[sn, st]`,
used to state the initial-value rendering rule parametrically. -/
def mkStateVisit (args : List Node) (sn st : String) : Visit :=
  ⟨.CallExpression (.Identifier "useState") args none,
   .VariableDeclarator
     (.ArrayPattern [some (.Identifier sn), some (.Identifier st)]) none,
   .Program []⟩

/-! ### Concrete example files -/

/-- `function Counter() { const [a, setA] = useState(0);
const [b, setB] = useState(1); }` — two destructured `useState` calls. -/
def twoStateAst : Node := .Program [
  .FunctionDeclaration (some (.Identifier "Counter")) [] [
    .VariableDeclaration [
      .VariableDeclarator
        (.ArrayPattern [some (.Identifier "a"), some (.Identifier "setA")])
        (some (.CallExpression (.Identifier "useState") [.NumericLiteral "0"] none))],
    .VariableDeclaration [
      .VariableDeclarator
        (.ArrayPattern [some (.Identifier "b"), some (.Identifier "setB")])
        (some (.CallExpression (.Identifier "useState") [.NumericLiteral "1"] none))]]]

/-- `function Counter() { const [n, setN] = useState(0);
return <div>\x7bn\x7d\x7bn\x7d</div>; }` — the spec's usage-counting example. -/
def usageDemoAst : Node := .Program [
  .FunctionDeclaration (some (.Identifier "Counter")) [] [
    .VariableDeclaration [
      .VariableDeclarator
        (.ArrayPattern [some (.Identifier "n"), some (.Identifier "setN")])
        (some (.CallExpression (.Identifier "useState") [.NumericLiteral "0"] none))],
    .ReturnStatement (some (.JSXElement [
      .JSXExpressionContainer (.Identifier "n"),
      .JSXExpressionContainer (.Identifier "n")]))]]

/-- `function Foo() {} function Bar() {}` — two rule-(1) candidates. -/
def twoFnAst : Node := .Program [
  .FunctionDeclaration (some (.Identifier "Foo")) [] [],
  .FunctionDeclaration (some (.Identifier "Bar")) [] []]

/-- `const [x, setX] = useState("hi")` at the top level. -/
def hiAst : Node := .Program [
  .VariableDeclaration [
    .VariableDeclarator
      (.ArrayPattern [some (.Identifier "x"), some (.Identifier "setX")])
      (some (.CallExpression (.Identifier "useState") [.StringLiteral "hi"] none))]]

/-- `useContext(ThemeCtx, 0)` — a `useContext` call with two arguments. -/
def twoArgCtxAst : Node := .Program [
  .ExpressionStatement (.CallExpression (.Identifier "useContext")
    [.Identifier "ThemeCtx", .NumericLiteral "0"] (some ⟨3, 5⟩))]

/-- `function Widget() {}` — a one-candidate file for the props-bridge witness. -/
def widgetAst : Node := .Program [
  .FunctionDeclaration (some (.Identifier "Widget")) [] []]

/-- `useEffect(() => \x7b\x7d, [a, b])` as a detached call visit. -/
def depsVisit : Visit :=
  ⟨.CallExpression (.Identifier "useEffect")
    [.ArrowFunctionExpression [] [],
     .ArrayExpression [some (.Identifier "a"), some (.Identifier "b")]] none,
   .Program [], .Program []⟩

/-! ### Theorems -/

/-- Claim C2 (code_bug evidence): on the spec's example
`const [n, setN] = useState(0); return <div>\x7bn\x7d\x7bn\x7d</div>;`
inside `function Counter`, the recorded `usageCount` for `n` is 3, not 2:
the declaring identifier `n` sits inside the `ArrayPattern`, whose parent
test (`parent.type !== 'VariableDeclarator'`) does not exclude it, so the
declaration is counted along with the two JSX references. -/
theorem countVariableUsage_example_counts_three :
    (extractComponentDetails usageDemoAst).states =
      [⟨"n", some "0", "setN", 3⟩] := rfl

/-- Claim C1 (counterexample): a component with two `useState` calls, each
destructured into a 2-element array pattern, yields only one `StateInfo`
entry, not one per call: the hook dedup-by-name check guards the state
extraction, so the second `useState` call is skipped entirely. -/
theorem two_useState_calls_one_state_entry :
    ((callVisits twoStateAst).filter isDestructuredUseState).length = 2 ∧
    (extractComponentDetails twoStateAst).states.length = 1 ∧
    (extractComponentDetails twoStateAst).states =
      [⟨"a", some "0", "setA", 1⟩] := ⟨rfl, rfl, rfl⟩

/-- Claim C3 (counterexample): a file with the two rule-(1) candidates
`Foo` and `Bar`, in that document order, resolves to `Bar` — the last
candidate, not the first: both visitors overwrite `componentName`
unconditionally. -/
theorem two_candidates_resolve_to_last :
    componentCandidates twoFnAst = ["Foo", "Bar"] ∧
    extractComponentName "/proj/index.js" twoFnAst = some "Bar" := ⟨rfl, rfl⟩

/-- Claim C4 (counterexample): a file with no rule-(1)/(2) candidate and no
default export at all still resolves to its PascalCase base name: the
filename fallback at the end of `extractComponentName` does not require an
anonymous default export. -/
theorem fallback_without_default_export :
    componentCandidates (Node.Program []) = [] ∧
    hasAnonymousDefaultExport (Node.Program []) = false ∧
    extractComponentName "/proj/Foo.tsx" (Node.Program []) = some "Foo" :=
  ⟨rfl, rfl, rfl⟩

/-- Claim C6 (counterexample): for `const [x, setX] = useState("hi")` the
recorded `initialValue` is the string `"hi"` with its quote characters —
four characters, not five. -/
theorem initialValue_hi_is_four_characters :
    ((extractComponentDetails hiAst).states.map fun s => s.initialValue) =
      [some "\"hi\""] ∧
    ((extractComponentDetails hiAst).states.map fun s =>
      s.initialValue.map String.length) = [some 4] := ⟨rfl, rfl⟩

/-- Claim C6 (amended): the `initialValue` of a recognized `useState`
declaration is the textual literal rendering of the call's first argument:
a string literal with its quotes preserved (so `useState("hi")` yields the
four-character text `"hi"`), numeric and boolean literal text, `null`,
`[]`, `\x7b\x7d`; any other first argument (or no argument) yields no
initial value. -/
theorem initialValue_literal_rendering (sn st v t : String) (b : Bool)
    (els : List (Option Node)) (ps : List Node) :
    ((extractStateFromUseState (mkStateVisit [.StringLiteral v] sn st)).map
        fun s => s.initialValue) = some (some ("\"" ++ v ++ "\"")) ∧
    ((extractStateFromUseState (mkStateVisit [.NumericLiteral t] sn st)).map
        fun s => s.initialValue) = some (some t) ∧
    ((extractStateFromUseState (mkStateVisit [.BooleanLiteral b] sn st)).map
        fun s => s.initialValue) = some (some (if b then "true" else "false")) ∧
    ((extractStateFromUseState (mkStateVisit [.NullLiteral] sn st)).map
        fun s => s.initialValue) = some (some "null") ∧
    ((extractStateFromUseState (mkStateVisit [.ArrayExpression els] sn st)).map
        fun s => s.initialValue) = some (some "[]") ∧
    ((extractStateFromUseState (mkStateVisit [.ObjectExpression ps] sn st)).map
        fun s => s.initialValue) = some (some "\x7b\x7d") ∧
    ((extractStateFromUseState (mkStateVisit [.Identifier v] sn st)).map
        fun s => s.initialValue) = some none ∧
    ((extractStateFromUseState (mkStateVisit [] sn st)).map
        fun s => s.initialValue) = some none :=
  ⟨rfl, rfl, rfl, rfl, rfl, rfl, rfl, rfl⟩

/-- Claim C7: for a `useEffect`/`useMemo`/`useCallback` call whose second
argument is an array literal, `dependencies` lists each element's text in
source order: an identifier its name, a call expression its callee's name
(a placeholder when the callee has no name), anything else a placeholder
(`filter(Boolean)` then drops empty strings, which no real element
produces). -/
theorem dependencies_of_array_literal (nm : String)
    (hnm : nm = "useEffect" ∨ nm = "useMemo" ∨ nm = "useCallback")
    (f : Node) (deps : List (Option Node)) (rest : List Node)
    (loc : Option Loc) (p s : Node) :
    (extractHookInfo ⟨.CallExpression (.Identifier nm)
        (f :: .ArrayExpression deps :: rest) loc, p, s⟩).dependencies =
      some ((deps.map depText).filter fun x => x != "") := by
  rcases hnm with h | h | h <;> subst h <;> rfl

/-- Witness for C7 at `useEffect(() => \x7b\x7d, [a, b])`: the dependency
list is `["a", "b"]` in source order. -/
theorem dependencies_of_array_literal_witness :
    (extractHookInfo depsVisit).dependencies = some ["a", "b"] :=
  (dependencies_of_array_literal "useEffect" (Or.inl rfl)
    (.ArrowFunctionExpression [] [])
    [some (.Identifier "a"), some (.Identifier "b")] [] none
    (.Program []) (.Program [])).trans rfl

/-- Claim C9 (counterexample): `useContext(ThemeCtx, 0)` has two arguments,
yet a `ContextInfo` named `ThemeCtx` with the call position as single
usage location is recorded: the code only requires a first argument that
is a bare identifier and ignores extra arguments. -/
theorem useContext_two_arguments_recorded :
    ((callVisits twoArgCtxAst).map fun v =>
      match v.node with
      | .CallExpression _ args _ => args.length
      | _ => 0) = [2] ∧
    ((extractComponentDetails twoArgCtxAst).contexts.map fun c =>
      (c.name, c.usageLocations)) = [("ThemeCtx", [⟨3, 5⟩])] := ⟨rfl, rfl⟩

/-- Claim C9 (amended): `extractContextInfo` yields a `ContextInfo` exactly
when the call's argument list is non-empty and its first argument is a
bare identifier; the entry's name is that identifier and its
`usageLocations` is the single call position; extra arguments are
ignored. -/
theorem extractContextInfo_shape (callee : Node) (args : List Node)
    (loc : Option Loc) (p s : Node) :
    extractContextInfo ⟨.CallExpression callee args loc, p, s⟩ =
      match args with
      | .Identifier nm :: _ =>
          some ⟨nm, [locOrZero loc],
                extractContextValue ⟨.CallExpression callee args loc, p, s⟩⟩
      | _ => none := by
  cases args with
  | nil => rfl
  | cons a t => cases a <;> rfl

/-- Claim C8: when the docgen collaborator throws or returns an empty
result, `analyzeComponent` still returns the `ComponentInfo` whose
hooks/states/contexts/storeUsage are exactly the extraction results, with
`props` empty and `description` unset. -/
theorem analyzeComponent_docgen_failure (filePath relativePath : String)
    (ast : Node) (docgen : DocgenResult)
    (hfail : docgen = .failure ∨ docgen = .success []) :
    analyzeComponent filePath relativePath ast docgen =
      (extractComponentName filePath ast).map fun nm =>
        ⟨nm, relativePath,
         (extractComponentDetails ast).hooks,
         (extractComponentDetails ast).states,
         (extractComponentDetails ast).contexts,
         [], none,
         (extractComponentDetails ast).storeUsage⟩ := by
  rcases hfail with h | h <;> subst h <;>
    · unfold analyzeComponent
      cases extractComponentName filePath ast <;> rfl

/-- Witness for C8: a file defining `Widget`, with a failing props bridge,
still yields its `ComponentInfo` with empty props and no description. -/
theorem analyzeComponent_docgen_failure_witness :
    analyzeComponent "/proj/Widget.tsx" "Widget.tsx" widgetAst .failure =
      some ⟨"Widget", "Widget.tsx", [], [], [], [], none, []⟩ :=
  (analyzeComponent_docgen_failure "/proj/Widget.tsx" "Widget.tsx" widgetAst
    .failure (Or.inl rfl)).trans rfl

/-! ### Lemmas about the identity resolver's traversal -/

/-- A node whose candidate condition does not fire leaves an
already-`foundInAST` state unchanged. -/
theorem nameStep_noncand_found {n : Node} (fnwe : String) {st : NameState}
    (hc : candidateName n = none) (hf : st.foundInAST = true) :
    nameStep fnwe st n = st := by
  unfold nameStep
  rw [hc]
  cases n <;> simp [hf]

/-- A non-candidate node maps the initial state either to itself or (via the
anonymous-default-export visitor) to the PascalCase filename. -/
theorem nameStep_noncand_start {n : Node} (fnwe : String)
    (hc : candidateName n = none) :
    nameStep fnwe ⟨none, false⟩ n = ⟨none, false⟩ ∨
      (nameStep fnwe ⟨none, false⟩ n = ⟨some fnwe, true⟩ ∧
        isPascalCase fnwe = true) := by
  unfold nameStep
  rw [hc]
  cases n <;> simp
  case ExportDefaultDeclaration decl =>
    by_cases hd : isAnonymousDefault decl
    · by_cases hp : isPascalCase fnwe
      · exact Or.inr ⟨by simp [hd, hp], hp⟩
      · exact Or.inl (by simp [hp])
    · exact Or.inl (by simp [hd])

/-- With no candidate in `l`, a found state survives the whole fold. -/
theorem foldl_nameStep_found (fnwe : String) :
    ∀ (l : List Node) (st : NameState),
      l.filterMap candidateName = [] → st.foundInAST = true →
      l.foldl (nameStep fnwe) st = st := by
  intro l
  induction l with
  | nil => intro st _ _; rfl
  | cons n t ih =>
      intro st hl hf
      cases hc : candidateName n with
      | some c =>
          simp only [List.filterMap_cons, hc] at hl
          exact (List.cons_ne_nil _ _ hl).elim
      | none =>
          simp only [List.filterMap_cons, hc] at hl
          rw [List.foldl_cons, nameStep_noncand_found fnwe hc hf]
          exact ih st hl hf

/-- If the candidates of `l` are `cs ++ [c]`, the fold ends at
`⟨some c, true⟩`: each rule-(1)/(2) visitor overwrites the name, so the
last candidate in document order wins. -/
theorem foldl_nameStep_last (fnwe : String) :
    ∀ (l : List Node) (cs : List String) (c : String) (st : NameState),
      l.filterMap candidateName = cs ++ [c] →
      l.foldl (nameStep fnwe) st = ⟨some c, true⟩ := by
  intro l
  induction l with
  | nil =>
      intro cs c st hl
      simp at hl
  | cons n t ih =>
      intro cs c st hl
      cases hc : candidateName n with
      | some c0 =>
          simp only [List.filterMap_cons, hc] at hl
          have hstep : nameStep fnwe st n = ⟨some c0, true⟩ := by
            unfold nameStep; rw [hc]
          rw [List.foldl_cons, hstep]
          cases ht : t.filterMap candidateName with
          | nil =>
              rw [ht] at hl
              cases cs with
              | nil =>
                  simp only [List.nil_append, List.cons.injEq] at hl
                  rw [hl.1]
                  exact foldl_nameStep_found fnwe t _ ht rfl
              | cons c1 cs1 => simp at hl
          | cons d ds =>
              rw [ht] at hl
              cases cs with
              | nil =>
                  exfalso
                  have := congrArg List.length hl
                  simp at this
              | cons c1 cs1 =>
                  simp only [List.cons_append, List.cons.injEq] at hl
                  exact ih cs1 c _ (by rw [ht, hl.2])
      | none =>
          simp only [List.filterMap_cons, hc] at hl
          rw [List.foldl_cons]
          exact ih cs c _ hl

/-- With no candidate anywhere, the fold from the initial state ends either
unchanged or at the PascalCase filename. -/
theorem foldl_nameStep_none (fnwe : String) :
    ∀ (l : List Node),
      l.filterMap candidateName = [] →
      l.foldl (nameStep fnwe) ⟨none, false⟩ = ⟨none, false⟩ ∨
        (l.foldl (nameStep fnwe) ⟨none, false⟩ = ⟨some fnwe, true⟩ ∧
          isPascalCase fnwe = true) := by
  intro l
  induction l with
  | nil => intro _; exact Or.inl rfl
  | cons n t ih =>
      intro hl
      cases hc : candidateName n with
      | some c =>
          simp only [List.filterMap_cons, hc] at hl
          exact (List.cons_ne_nil _ _ hl).elim
      | none =>
          simp only [List.filterMap_cons, hc] at hl
          rw [List.foldl_cons]
          rcases nameStep_noncand_start fnwe hc with h | ⟨h, hp⟩
          · rw [h]; exact ih hl
          · rw [h, foldl_nameStep_found fnwe t _ hl rfl]
            exact Or.inr ⟨rfl, hp⟩

/-- Claim C3 (amended): component-identity resolution via rules (1)/(2) is
last-match-wins in document order: whenever the file's candidate list is
`cs ++ [c]`, the resolver returns `c` (subject only to the filename
disambiguation applied afterwards). -/
theorem resolve_last_candidate (filePath : String) (ast : Node)
    (cs : List String) (c : String)
    (h : componentCandidates ast = cs ++ [c]) :
    extractComponentName filePath ast =
      finishName (fileNameWithoutExt filePath) (some c) := by
  unfold extractComponentName
  rw [foldl_nameStep_last (fileNameWithoutExt filePath)
    ((subVisits ast).map Visit.node) cs c ⟨none, false⟩ h]

/-- Witness for C3 (amended) on the two-candidate file: the resolver
returns `Bar`, the last candidate. -/
theorem resolve_last_candidate_witness :
    extractComponentName "/proj/index.js" twoFnAst = some "Bar" :=
  (resolve_last_candidate "/proj/index.js" twoFnAst ["Foo"] "Bar" rfl).trans rfl

/-- Claim C4 (amended): when no rule-(1)/(2) candidate exists anywhere in
the file, the resolver falls back to the file's base name exactly when
that base name is PascalCase — regardless of whether the file has an
anonymous default export — and returns nothing otherwise. -/
theorem resolve_fallback (filePath : String) (ast : Node)
    (h : componentCandidates ast = []) :
    extractComponentName filePath ast =
      (if isPascalCase (fileNameWithoutExt filePath) then
        some (fileNameWithoutExt filePath)
      else none) := by
  unfold extractComponentName
  rcases foldl_nameStep_none (fileNameWithoutExt filePath)
      ((subVisits ast).map Visit.node) h with h1 | ⟨h1, hp⟩
  · rw [h1]; rfl
  · rw [h1]
    simp [finishName, hp]

/-- Witness for C4 (amended): a candidate-free file with the non-PascalCase
base name `util` yields no component. -/
theorem resolve_fallback_witness :
    extractComponentName "/proj/util.ts" (Node.Program []) = none :=
  (resolve_fallback "/proj/util.ts" (Node.Program []) rfl).trans rfl

/-! ### Lemmas about the structural extractor's traversal -/

/-- String `==` is symmetric. -/
theorem strBeq_comm (a b : String) : (a == b) = (b == a) := by
  rw [Bool.eq_iff_iff]
  simp only [beq_iff_eq]
  exact eq_comm

/-- The hook-dedup test over `HookInfo` entries is containment of the name
in the projected name list. -/
theorem any_name_eq_contains (l : List HookInfo) (nm : String) :
    (l.any fun h => h.name == nm) = (l.map HookInfo.name).contains nm := by
  induction l with
  | nil => rfl
  | cons h t ih =>
      simp only [List.any_cons, List.map_cons, List.contains_cons, ih,
        strBeq_comm h.name nm]

/-- Membership after a dedup step. -/
theorem contains_dedupStep (ns : List String) (nm x : String) :
    (dedupStep ns nm).contains x = (ns.contains x || x == nm) := by
  unfold dedupStep
  rw [Bool.eq_iff_iff]
  by_cases h : ns.contains nm
  · rw [if_pos h]
    simp only [Bool.or_eq_true, List.elem_iff, beq_iff_eq]
    constructor
    · exact Or.inl
    · rintro (hx | rfl)
      · exact hx
      · exact List.elem_iff.mp h
  · rw [if_neg h]
    simp only [Bool.or_eq_true, List.elem_iff, beq_iff_eq, List.mem_append,
      List.mem_singleton]

/-- A dedup step preserves `Nodup`. -/
theorem nodup_dedupStep (ns : List String) (nm : String) (h : ns.Nodup) :
    (dedupStep ns nm).Nodup := by
  unfold dedupStep
  by_cases hc : ns.contains nm
  · rw [if_pos hc]; exact h
  · rw [if_neg hc]
    have hnm : nm ∉ ns := fun hm => hc (List.elem_iff.mpr hm)
    simp [List.nodup_append, h, hnm]

/-- Folding dedup steps preserves `Nodup`. -/
theorem nodup_foldl_dedupStep :
    ∀ (l : List String) (ns : List String), ns.Nodup →
      (l.foldl dedupStep ns).Nodup := by
  intro l
  induction l with
  | nil => intro ns h; exact h
  | cons nm t ih => intro ns h; exact ih _ (nodup_dedupStep ns nm h)

/-- The recorded `HookInfo`'s name is the recognized hook name. -/
theorem extractHookInfo_name {v : Visit} {nm : String}
    (h : hookNameOfVisit v = some nm) : (extractHookInfo v).name = nm := by
  obtain ⟨n, p, s⟩ := v
  cases n <;> try exact Option.noConfusion h
  case CallExpression callee args loc =>
    cases callee <;> try exact Option.noConfusion h
    case Identifier nm0 =>
      have h2 : (if strStartsWith nm0 "use" then some nm0 else none) =
          some nm := h
      by_cases hu : strStartsWith nm0 "use"
      · rw [if_pos hu] at h2
        cases h2
        rfl
      · rw [if_neg hu] at h2
        exact Option.noConfusion h2

/-- `isUseStateCall` holds exactly when the recognized hook name is
`useState`. -/
theorem isUseStateCall_iff (v : Visit) :
    isUseStateCall v = true ↔ hookNameOfVisit v = some "useState" := by
  obtain ⟨n, p, s⟩ := v
  cases n <;>
    try exact ⟨fun h => Bool.noConfusion h, fun h => Option.noConfusion h⟩
  case CallExpression callee args loc =>
    cases callee <;>
      try exact ⟨fun h => Bool.noConfusion h, fun h => Option.noConfusion h⟩
    case Identifier nm0 =>
      constructor
      · intro h
        have hn : (nm0 == "useState") = true := h
        have hn2 : nm0 = "useState" := by simpa using hn
        subst hn2
        rfl
      · intro h
        have h2 : (if strStartsWith nm0 "use" then some nm0 else none) =
            some "useState" := h
        by_cases hu : strStartsWith nm0 "use"
        · rw [if_pos hu] at h2
          cases h2
          rfl
        · rw [if_neg hu] at h2
          exact Option.noConfusion h2

/-- The hooks list after one visitor step: dedup-by-name append of the
recognized hook name; other calls leave it unchanged. -/
theorem processCall_hooks (acc : ExtractAcc) (v : Visit) :
    (processCall acc v).hooks =
      match hookNameOfVisit v with
      | some nm =>
          if acc.hooks.any (fun h => h.name == nm) then acc.hooks
          else acc.hooks ++ [extractHookInfo v]
      | none => acc.hooks := by
  obtain ⟨n, p, s⟩ := v
  cases n <;> simp only [processCall, hookNameOfVisit]
  case CallExpression callee args loc =>
    cases callee <;> try rfl
    case Identifier nm =>
      by_cases hu : strStartsWith nm "use"
      · simp only [hu, if_true]
        by_cases hd : acc.hooks.any fun h => h.name == nm
        · simp [hd]
        · simp only [hd, if_false, Bool.false_eq_true]
          repeat' split
          all_goals rfl
      · simp [hu]

/-- The states list after one visitor step: only a first (non-deduped)
`useState` call can append, and it appends its extraction result. -/
theorem processCall_states (acc : ExtractAcc) (v : Visit) :
    (processCall acc v).states =
      (if isUseStateCall v && !(acc.hooks.any fun h => h.name == "useState")
       then acc.states ++ (extractStateFromUseState v).toList
       else acc.states) := by
  obtain ⟨n, p, s⟩ := v
  cases n <;> simp only [processCall, isUseStateCall] <;> try rfl
  case CallExpression callee args loc =>
    cases callee <;> try rfl
    case Identifier nm =>
      by_cases hn : nm = "useState"
      · subst hn
        have hu : strStartsWith "useState" "use" = true := rfl
        simp only [hu, if_true, beq_self_eq_true, Bool.true_and]
        by_cases hd : acc.hooks.any fun h => h.name == "useState"
        · simp [hd]
        · simp only [hd, Bool.not_false, if_true, Bool.false_eq_true]
          have hc : (("useState" : String) == "useContext") = false := rfl
          cases hst : extractStateFromUseState
              ⟨Node.CallExpression (.Identifier "useState") args loc, p, s⟩ <;>
            simp [hst, hc]
      · have hne : (nm == "useState") = false := by simpa using hn
        simp only [hne, Bool.false_and, if_false, Bool.false_eq_true]
        by_cases hu : strStartsWith nm "use"
        · simp only [hu, if_true]
          by_cases hd : acc.hooks.any fun h => h.name == nm
          · simp [hd]
          · simp only [hd, if_false, Bool.false_eq_true, hne]
            repeat' split
            all_goals rfl
        · simp [hu]

/-- The storeUsage list after one visitor step is the store detection
applied to the previous list. -/
theorem processCall_storeUsage (acc : ExtractAcc) (v : Visit) :
    (processCall acc v).storeUsage = detectStoreUsage v acc.storeUsage := by
  obtain ⟨n, p, s⟩ := v
  cases n <;> simp only [processCall]
  case CallExpression callee args loc =>
    cases callee <;> try rfl
    case Identifier nm =>
      repeat' split
      all_goals rfl

/-- Whether a `useState` hook is registered after one step. -/
theorem processCall_anyUseState (acc : ExtractAcc) (v : Visit) :
    ((processCall acc v).hooks.any fun h => h.name == "useState") =
      ((acc.hooks.any fun h => h.name == "useState") || isUseStateCall v) := by
  rw [processCall_hooks]
  cases hv : hookNameOfVisit v with
  | none =>
      have : isUseStateCall v = false := by
        rw [Bool.eq_false_iff]
        intro hc
        rw [(isUseStateCall_iff v).mp hc] at hv
        exact Option.noConfusion hv
      simp [this]
  | some nm =>
      have hname : (extractHookInfo v).name = nm := extractHookInfo_name hv
      have husc : isUseStateCall v = (nm == "useState") := by
        rw [Bool.eq_iff_iff, isUseStateCall_iff, hv]
        constructor
        · intro h
          cases h
          simp
        · intro h
          have hn : nm = "useState" := by simpa using h
          rw [hn]
      by_cases hd : acc.hooks.any fun h => h.name == nm
      · simp only [hd, if_true, husc]
        by_cases hn : nm = "useState"
        · subst hn
          rw [hd, Bool.true_or]
        · have hne : (nm == "useState") = false := by simpa using hn
          rw [hne, Bool.or_false]
      · simp only [hd, if_false, Bool.false_eq_true, List.any_append,
          List.any_cons, List.any_nil, hname, husc, Bool.or_false]

/-- The hook-name list of the fold is the dedup fold of the recognized
hook-call names. -/
theorem foldl_processCall_hookNames :
    ∀ (sites : List Visit) (acc : ExtractAcc),
      ((sites.foldl processCall acc).hooks.map HookInfo.name) =
        (sites.filterMap hookNameOfVisit).foldl dedupStep
          (acc.hooks.map HookInfo.name) := by
  intro sites
  induction sites with
  | nil => intro acc; rfl
  | cons v t ih =>
      intro acc
      rw [List.foldl_cons, ih]
      cases hv : hookNameOfVisit v with
      | none =>
          have hh : (processCall acc v).hooks = acc.hooks := by
            rw [processCall_hooks, hv]
          rw [List.filterMap_cons, hv, hh]
      | some nm =>
          have hif : (processCall acc v).hooks =
              (if acc.hooks.any (fun h => h.name == nm) then acc.hooks
               else acc.hooks ++ [extractHookInfo v]) := by
            rw [processCall_hooks, hv]
          have hh : (processCall acc v).hooks.map HookInfo.name =
              dedupStep (acc.hooks.map HookInfo.name) nm := by
            rw [hif]
            unfold dedupStep
            rw [← any_name_eq_contains]
            by_cases hd : acc.hooks.any fun h => h.name == nm
            · rw [if_pos hd, if_pos hd]
            · rw [if_neg hd, if_neg hd, List.map_append, List.map_cons,
                List.map_nil, extractHookInfo_name hv]
          rw [List.filterMap_cons, hv, List.foldl_cons, hh]

/-- The states of the fold come solely from the first `useState` call (by
callee name) among the remaining sites, provided no `useState` hook is
registered yet. -/
theorem foldl_processCall_states :
    ∀ (sites : List Visit) (acc : ExtractAcc),
      (sites.foldl processCall acc).states =
        acc.states ++
          (if acc.hooks.any (fun h => h.name == "useState") then []
           else ((sites.find? isUseStateCall).bind extractStateFromUseState).toList) := by
  intro sites
  induction sites with
  | nil =>
      intro acc
      cases h : acc.hooks.any fun h => h.name == "useState" <;> simp [h]
  | cons v t ih =>
      intro acc
      rw [List.foldl_cons, ih]
      cases hv : isUseStateCall v with
      | false =>
          have hs : (processCall acc v).states = acc.states := by
            rw [processCall_states, hv]
            simp
          have ha : ((processCall acc v).hooks.any fun h =>
              h.name == "useState") =
              (acc.hooks.any fun h => h.name == "useState") := by
            rw [processCall_anyUseState, hv, Bool.or_false]
          rw [hs, ha, List.find?_cons_of_neg _ (by simp [hv])]
      | true =>
          have ha : ((processCall acc v).hooks.any fun h =>
              h.name == "useState") = true := by
            rw [processCall_anyUseState, hv, Bool.or_true]
          rw [ha, List.find?_cons_of_pos _ hv]
          cases hd : acc.hooks.any fun h => h.name == "useState" with
          | true =>
              have hs : (processCall acc v).states = acc.states := by
                rw [processCall_states, hv, hd]
                simp
              rw [hs]
              simp
          | false =>
              have hs : (processCall acc v).states =
                  acc.states ++ (extractStateFromUseState v).toList := by
                rw [processCall_states, hv, hd]
                simp
              rw [hs]
              simp

/-- The storeUsage of the fold preserves the allowed-tag invariant. -/
theorem addStoreInfo_allowed (su : List StoreInfo) (t : StoreType)
    (cat : StoreCategory) (nm : String)
    (hsu : (su.map StoreInfo.type).all allowedStoreType = true)
    (ht : allowedStoreType t = true) :
    (((addStoreInfo su t cat nm).map StoreInfo.type).all allowedStoreType) =
      true := by
  induction su with
  | nil =>
      have : (addToCategory ⟨t, [], []⟩ cat nm).type = t := by
        cases cat <;> simp [addToCategory]
      simp [addStoreInfo, this, ht]
  | cons s rest ih =>
      rw [List.map_cons, List.all_cons, Bool.and_eq_true] at hsu
      unfold addStoreInfo
      by_cases he : s.type = t
      · rw [if_pos he]
        have : (addToCategory s cat nm).type = s.type := by
          cases cat <;> simp [addToCategory] <;> split <;> rfl
        simp [this, hsu.1, hsu.2]
      · rw [if_neg he]
        simp [hsu.1, ih hsu.2]

/-- Store detection only ever produces redux/recoil/zustand/jotai buckets. -/
theorem detectStoreUsage_allowed (v : Visit) (su : List StoreInfo)
    (hsu : (su.map StoreInfo.type).all allowedStoreType = true) :
    (((detectStoreUsage v su).map StoreInfo.type).all allowedStoreType) =
      true := by
  obtain ⟨n, p, s⟩ := v
  cases n <;> try exact hsu
  case CallExpression callee args loc =>
    cases callee <;> try exact hsu
    case Identifier nm =>
      simp only [detectStoreUsage]
      repeat' split
      all_goals first
        | exact hsu
        | exact addStoreInfo_allowed _ _ _ _ hsu rfl

/-- The fold preserves the allowed-tag invariant of `storeUsage`. -/
theorem foldl_processCall_storeAllowed :
    ∀ (sites : List Visit) (acc : ExtractAcc),
      ((acc.storeUsage.map StoreInfo.type).all allowedStoreType = true) →
      (((sites.foldl processCall acc).storeUsage.map StoreInfo.type).all
        allowedStoreType) = true := by
  intro sites
  induction sites with
  | nil => intro acc h; exact h
  | cons v t ih =>
      intro acc h
      rw [List.foldl_cons]
      exact ih _ (by rw [processCall_storeUsage]
                     exact detectStoreUsage_allowed v acc.storeUsage h)

/-- Claim C5: within one component, hooks are deduplicated by exact name:
the recorded hook-name list is the first-occurrence deduplication of the
recognized hook-call names in traversal order, and contains no
duplicates. -/
theorem hooks_unique_by_name (ast : Node) :
    ((extractComponentDetails ast).hooks.map HookInfo.name) =
      dedupFirst (hookCallNames ast) ∧
    ((extractComponentDetails ast).hooks.map HookInfo.name).Nodup := by
  have h : (extractComponentDetails ast).hooks.map HookInfo.name =
      ((callVisits ast).filterMap hookNameOfVisit).foldl dedupStep [] :=
    foldl_processCall_hookNames (callVisits ast) ⟨[], [], [], []⟩
  constructor
  · exact h
  · rw [h]
    exact nodup_foldl_dedupStep _ [] List.nodup_nil

/-- Claim C1 (amended): the states list comes solely from the first
`useState` call in traversal order (hook dedup-by-name suppresses state
extraction for every later `useState` call), so it has at most one
entry. -/
theorem states_from_first_useState_only (ast : Node) :
    (extractComponentDetails ast).states =
      (((callVisits ast).find? isUseStateCall).bind
        extractStateFromUseState).toList ∧
    (extractComponentDetails ast).states.length ≤ 1 := by
  have h : (extractComponentDetails ast).states =
      (((callVisits ast).find? isUseStateCall).bind
        extractStateFromUseState).toList := by
    have h0 := foldl_processCall_states (callVisits ast) ⟨[], [], [], []⟩
    simpa using h0
  refine ⟨h, ?_⟩
  rw [h]
  cases ((callVisits ast).find? isUseStateCall).bind extractStateFromUseState <;>
    simp

/-- Claim C10: every `StoreInfo` bucket the extraction produces carries one
of the tags redux, recoil, zustand, jotai — never mobx or other. -/
theorem storeUsage_tags_allowed (ast : Node) :
    (((extractComponentDetails ast).storeUsage.map StoreInfo.type).all
      allowedStoreType) = true :=
  foldl_processCall_storeAllowed (callVisits ast) ⟨[], [], [], []⟩ rfl

end ReactBroX
